import Mathlib

/-!
Shallow embedding of the response-formatting core of the
`streamlit-examples-for-bedrock` repository (file
`1-multimodel_chat_clean_stream.py`), together with the conversation
orchestration of `1-chat.py` and the streaming driver.

Text is modelled as `List Char`.  Python string operations are modelled as
follows:

* `s.split(sep, 1)` / `sep in s` are modelled by `splitFirst`, which finds
  the leftmost occurrence of `sep`;
* `str.strip()` is `pyStrip` (whitespace stripped from both ends);
* `re.sub(pat, repl, s)` for the regexes appearing in the source is modelled
  by `subScan try n s`: a left-to-right scan that at each position attempts
  the (anchored) match `try`; on success it emits the replacement and resumes
  after the consumed text, on failure it moves one character forward —
  exactly the semantics of `re.sub`.  Each regex of the source is rendered as
  an anchored matcher (`tryLit`, `tryBars`, `trySize`, `tryBinaryGlyph`,
  `tryDollar`); the lazy group `\$\$(.*?)\$\$` matches up to the first
  following `$$` with no intervening newline, which is what `tryDollar`
  computes.  The fuel argument `n` is always instantiated with the length of
  the scanned text, which suffices because every matcher consumes at least
  one character.
-/

namespace Bedrock

def toL (s : String) : List Char := s.toList

/-- Python's `str.strip` whitespace class (the ASCII part, which is all the
source ever feeds it). -/
def isPySpace (c : Char) : Bool :=
  c = ' ' || c = '\t' || c = '\n' || c = '\r' || c = '\x0b' || c = '\x0c'

/-- Python `str.strip()`: drop whitespace from both ends. -/
def pyStrip (s : List Char) : List Char :=
  ((s.dropWhile isPySpace).reverse.dropWhile isPySpace).reverse

/-- Leftmost occurrence of `sep` in `s`: `some (before, after)` when `sep`
occurs, `none` otherwise.  Models Python `s.split(sep, 1)` (and `sep in s`
via `Option.isSome`). -/
def splitFirst (sep : List Char) : List Char → Option (List Char × List Char)
  | [] => none
  | c :: rest =>
    if sep.isPrefixOf (c :: rest) then some ([], (c :: rest).drop sep.length)
    else
      match splitFirst sep rest with
      | some (a, b) => some (c :: a, b)
      | none => none

/-- Python `sep in s` (for the non-empty separators of the source). -/
def containsTag (sep s : List Char) : Bool :=
  (splitFirst sep s).isSome

/-- Python `s.split(sep)[0]`: text before the first occurrence of `sep`,
or all of `s` when `sep` does not occur. -/
def beforeFirst (sep s : List Char) : List Char :=
  match splitFirst sep s with
  | some p => p.1
  | none => s

/-- Python `s.split(sep, 1)[-1]`: text after the first occurrence of `sep`,
or all of `s` when `sep` does not occur. -/
def afterFirst (sep s : List Char) : List Char :=
  match splitFirst sep s with
  | some p => p.2
  | none => s

/-- Python `s.split(c)` for a single-character separator. -/
def splitOnChar (sep : Char) : List Char → List (List Char)
  | [] => [[]]
  | c :: rest =>
    if c = sep then [] :: splitOnChar sep rest
    else
      match splitOnChar sep rest with
      | [] => [[c]]
      | h :: t => (c :: h) :: t

/-- Python `c.join(lines)` for a single-character separator. -/
def joinWith (sep : Char) : List (List Char) → List Char
  | [] => []
  | [l] => l
  | l :: ls => l ++ sep :: joinWith sep ls

/-- Generic `re.sub` scanner: at each position try the anchored matcher; on a
match emit its output and continue after the consumed input, otherwise move
one character forward.  Fuel is the length of the scanned text (every matcher
of this file consumes at least one character per match). -/
def subScan (tryM : List Char → Option (List Char × List Char)) :
    Nat → List Char → List Char
  | _, [] => []
  | 0, s => s
  | Nat.succ fuel, c :: rest =>
    match tryM (c :: rest) with
    | some (out, rem) => out ++ subScan tryM fuel rem
    | none => c :: subScan tryM fuel rest

/-- Anchored matcher for a literal pattern (the control-sequence regexes of
`replace_math_symbols`, e.g. `re.sub(r'\\cup', '∪', expr)`). -/
def tryLit (pat repl s : List Char) : Option (List Char × List Char) :=
  if pat.isPrefixOf s then some (repl, s.drop pat.length) else none

/-- `re.sub(pat, repl, s)` for a literal pattern. -/
def replaceAll (pat repl s : List Char) : List Char :=
  subScan (tryLit pat repl) s.length s

/-! The four section markers of the reasoning tag grammar. -/

def BEGIN_THOUGHT : List Char := toL "<|begin_of_thought|>"

def END_THOUGHT : List Char := toL "<|end_of_thought|>"

def BEGIN_SOLUTION : List Char := toL "<|begin_of_solution|>"

def END_SOLUTION : List Char := toL "<|end_of_solution|>"

/-- Source `check_missing_tags` (lines 19–31): a begin tag is present whose
matching end tag is absent. -/
def check_missing_tags (text : List Char) : Bool :=
  let begin_thought := containsTag BEGIN_THOUGHT text
  let end_thought := containsTag END_THOUGHT text
  let begin_solution := containsTag BEGIN_SOLUTION text
  let end_solution := containsTag END_SOLUTION text
  (begin_thought && !end_thought) || (begin_solution && !end_solution)

/-! ## The math rewriter (`format_latex`, lines 33–95) -/

/-- The 26 control-sequence substitutions of `replace_math_symbols`
(lines 40–65), in source order. -/
def symbolTable : List (List Char × List Char) :=
  [ (toL "\\cup", toL "∪"),
    (toL "\\cap", toL "∩"),
    (toL "\\subset", toL "⊂"),
    (toL "\\supset", toL "⊃"),
    (toL "\\in", toL "∈"),
    (toL "\\notin", toL "∉"),
    (toL "\\emptyset", toL "∅"),
    (toL "\\forall", toL "∀"),
    (toL "\\exists", toL "∃"),
    (toL "\\neg", toL "¬"),
    (toL "\\wedge", toL "∧"),
    (toL "\\vee", toL "∨"),
    (toL "\\leq", toL "≤"),
    (toL "\\geq", toL "≥"),
    (toL "\\neq", toL "≠"),
    (toL "\\approx", toL "≈"),
    (toL "\\cdot", toL "·"),
    (toL "\\times", toL "×"),
    (toL "\\div", toL "÷"),
    (toL "\\pm", toL "±"),
    (toL "\\infty", toL "∞"),
    (toL "\\sum", toL "∑"),
    (toL "\\prod", toL "∏"),
    (toL "\\rightarrow", toL "→"),
    (toL "\\leftarrow", toL "←"),
    (toL "\\leftrightarrow", toL "↔") ]

/-- Apply a table of literal substitutions in list order (each entry is one
`re.sub` pass over the whole expression). -/
def applySubs (table : List (List Char × List Char)) (expr : List Char) : List Char :=
  table.foldl (fun e pr => replaceAll pr.1 pr.2 e) expr

/-- Anchored matcher for `re.sub(r'\|([^|]+)\|', 'size(\1)', expr)`
(line 67): a `|`, then one or more non-`|` characters (i.e. everything up to
the next `|`, which must be non-empty), then the closing `|`. -/
def tryBars (s : List Char) : Option (List Char × List Char) :=
  match s with
  | '|' :: rest =>
    match splitFirst (toL "|") rest with
    | some (mid, rest2) =>
      if mid = [] then none else some (toL "size(" ++ mid ++ toL ")", rest2)
    | none => none
  | _ => none

/-- Source `replace_math_symbols` (lines 37–68): the 26 literal control
sequence substitutions in source order, then the set-size notation pass. -/
def replace_math_symbols (expr : List Char) : List Char :=
  let e := applySubs symbolTable expr
  subScan tryBars e.length e

/-- Anchored matcher for the inline display-math regex
`re.sub(r'\$\$(.*?)\$\$', lambda m: f':latex:`{replace_math_symbols(m.group(1))}`', text)`
(line 71).  The lazy group matches up to the first following `$$`; since `.`
does not match a newline, the match fails if a newline intervenes. -/
def tryDollar (s : List Char) : Option (List Char × List Char) :=
  if (toL "$$").isPrefixOf s then
    match splitFirst (toL "$$") (s.drop 2) with
    | some (content, rest2) =>
      if content.contains '\n' then none
      else some (toL ":latex:`" ++ replace_math_symbols content ++ toL "`", rest2)
    | none => none
  else none

/-- The multiline `$$`-fenced block loop of `format_latex` (lines 74–94):
a line that strips to `$$` opens a block, the next such line closes it and
the block's lines are joined, symbol-substituted and wrapped; lines of an
unterminated block are dropped (never appended to `formatted_lines`). -/
def processLines : Bool → List (List Char) → List (List Char) → List (List Char)
  | _, _, [] => []
  | false, acc, line :: rest =>
    if pyStrip line = toL "$$" then processLines true [] rest
    else line :: processLines false acc rest
  | true, acc, line :: rest =>
    if pyStrip line = toL "$$" then
      (toL ":latex:`" ++ replace_math_symbols (joinWith '\n' acc) ++ toL "`")
        :: processLines false [] rest
    else processLines true (acc ++ [line]) rest

/-- Source `format_latex` (lines 33–95): the inline `$$ … $$` pass, then the
multiline `$$`-fence pass. -/
def format_latex (text : List Char) : List Char :=
  let t1 := subScan tryDollar text.length text
  joinWith '\n' (processLines false [] (splitOnChar '\n' t1))

/-! ## The cosmetic pass (`process_math_expressions`, lines 97–110) -/

/-- Anchored matcher for `re.sub(r'size\(([^)]+)\)', …)` (line 102): literal
`size(`, one or more non-`)` characters, then `)`; replaced by
`the size of ` followed by the captured content. -/
def trySize (s : List Char) : Option (List Char × List Char) :=
  if (toL "size(").isPrefixOf s then
    match splitFirst (toL ")") (s.drop 5) with
    | some (content, rest2) =>
      if content = [] then none else some (toL "the size of " ++ content, rest2)
    | none => none
  else none

/-- ASCII letter, the regex class `[A-Za-z]`. -/
def isAsciiLetter (c : Char) : Bool :=
  ('A' ≤ c && c ≤ 'Z') || ('a' ≤ c && c ≤ 'z')

/-- Anchored matcher for the single-letter binary-operator regexes of
`process_math_expressions` (lines 103–108), e.g.
`re.sub(r'([A-Za-z])\s*∪\s*([A-Za-z])', r'\1 union \2', text)`:
a letter, optional whitespace, the glyph, optional whitespace, a letter. -/
def tryBinaryGlyph (glyph : Char) (phrase : List Char) (s : List Char) :
    Option (List Char × List Char) :=
  match s with
  | c :: rest =>
    if isAsciiLetter c then
      match rest.dropWhile isPySpace with
      | g :: rest2 =>
        if g = glyph then
          match rest2.dropWhile isPySpace with
          | d :: rest3 =>
            if isAsciiLetter d then some (c :: phrase ++ [d], rest3) else none
          | [] => none
        else none
      | [] => none
    else none
  | [] => none

/-- Source `process_math_expressions` (lines 97–110): the `size(…)` pass then
the six single-letter glyph-to-phrase passes, in source order. -/
def process_math_expressions (text : List Char) : List Char :=
  let t1 := subScan trySize text.length text
  let t2 := subScan (tryBinaryGlyph '∪' (toL " union ")) t1.length t1
  let t3 := subScan (tryBinaryGlyph '∩' (toL " intersect ")) t2.length t2
  let t4 := subScan (tryBinaryGlyph '⊂' (toL " is a subset of ")) t3.length t3
  let t5 := subScan (tryBinaryGlyph '⊃' (toL " is a superset of ")) t4.length t4
  let t6 := subScan (tryBinaryGlyph '∈' (toL " is an element of ")) t5.length t5
  subScan (tryBinaryGlyph '∉' (toL " is not an element of ")) t6.length t6

/-! ## The tag extractor and the two formatters (lines 112–195) -/

/-- The fixed thought heading (lines 126 and 181). -/
def thoughtHeader : List Char :=
  toL "### Nova Lite Reasoning for you - I am not perfect, but will try my best🫡\n\n"

/-- The fixed solution heading (lines 141 and 185). -/
def solutionHeader : List Char := toL "### Solution\n\n"

/-- The streaming cursor appended to every `format_streaming_response`
return value (lines 118, 156, 158). -/
def cursorL : List Char := toL "▌"

/-- The fixed truncation warning annotation (line 189). -/
def warnText : List Char :=
  toL "\n\n⚠️ *Note: Sorry I could not complete my thought process😕. Out of Bedrock tokens. Some sections may be incomplete.*"

/-- The warning annotation without its two leading newlines. -/
def warnCore : List Char :=
  toL "⚠️ *Note: Sorry I could not complete my thought process😕. Out of Bedrock tokens. Some sections may be incomplete.*"

/-- Thought content as computed by `format_streaming_response`
(lines 128–134, reached when `BEGIN_THOUGHT` occurs in `text`): everything
after the first `<|begin_of_thought|>`, cut at the first following
`<|end_of_thought|>` if one occurs. -/
def thoughtContentOfStream (text : List Char) : List Char :=
  beforeFirst END_THOUGHT (afterFirst BEGIN_THOUGHT text)

/-- The `current_text` left for the solution search in
`format_streaming_response` (lines 122–135): the full buffer, replaced by
everything after the first `<|end_of_thought|>` once the thought section was
opened and closed. -/
def streamCurrentAfterThought (text : List Char) : List Char :=
  if containsTag BEGIN_THOUGHT text then
    if containsTag END_THOUGHT (afterFirst BEGIN_THOUGHT text) then
      afterFirst END_THOUGHT text
    else text
  else text

/-- Solution content as computed by `format_streaming_response`
(lines 143–149) from its solution-search zone: everything after the first
`<|begin_of_solution|>`, cut at the first following `<|end_of_solution|>`. -/
def solContentOfStream (zone : List Char) : List Char :=
  beforeFirst END_SOLUTION (afterFirst BEGIN_SOLUTION zone)

/-- Source `format_streaming_response` (lines 112–158).  Every Python return
statement of the function appends the cursor `"▌"`, which the embedding
factors out as a single trailing append. -/
def format_streaming_response (text : List Char) (is_reasoning_prompt : Bool) :
    List Char :=
  (if is_reasoning_prompt = false then
    process_math_expressions (format_latex text)
  else
    let ft1 : List Char :=
      if containsTag BEGIN_THOUGHT text then
        process_math_expressions
          (thoughtHeader ++ format_latex (thoughtContentOfStream text) ++ toL "\n\n")
      else []
    let cur1 := streamCurrentAfterThought text
    let ft2 : List Char :=
      if containsTag BEGIN_SOLUTION cur1 then
        process_math_expressions
          (ft1 ++ solutionHeader ++ format_latex (solContentOfStream cur1))
      else ft1
    if ft2 = [] then process_math_expressions (format_latex cur1)
    else pyStrip ft2) ++ cursorL

/-- Thought content as extracted by `format_final_response` (lines 169–170):
`re.search(r'<\|begin_of_thought\|>(.*?)(?:<\|end_of_thought\|>|$)', text, re.DOTALL)`
— with the lazy group this is everything between the first
`<|begin_of_thought|>` and the first following `<|end_of_thought|>` (or the
end of the buffer), stripped; `""` when there is no begin marker. -/
def finalThoughtContent (text : List Char) : List Char :=
  match splitFirst BEGIN_THOUGHT text with
  | some p => pyStrip (beforeFirst END_THOUGHT p.2)
  | none => []

/-- Solution content as extracted by `format_final_response` (lines 173–174),
searched over the whole buffer. -/
def finalSolutionContent (text : List Char) : List Char :=
  match splitFirst BEGIN_SOLUTION text with
  | some p => pyStrip (beforeFirst END_SOLUTION p.2)
  | none => []

/-- Source `format_final_response` (lines 160–195). -/
def format_final_response (text : List Char) (is_reasoning_prompt : Bool)
    (is_stream_complete : Bool) : List Char :=
  if is_reasoning_prompt = false then
    process_math_expressions (format_latex text)
  else
    let thought_content := finalThoughtContent text
    let solution_content := finalSolutionContent text
    let ft1 : List Char :=
      if thought_content = [] then []
      else
        thoughtHeader ++ process_math_expressions (format_latex thought_content)
          ++ toL "\n\n"
    let ft2 : List Char :=
      if solution_content = [] then ft1
      else ft1 ++ solutionHeader ++ process_math_expressions (format_latex solution_content)
    let ft3 : List Char :=
      if is_reasoning_prompt && is_stream_complete && check_missing_tags text then
        ft2 ++ warnText
      else ft2
    let ft4 : List Char :=
      if ft3 = [] then process_math_expressions (format_latex text) else ft3
    pyStrip ft4

/-! ## Conversation orchestration (`1-chat.py` lines 54–99 and
`1-multimodel_chat_clean_stream.py` lines 197–226, 321–373)

A chat turn is modelled explicitly; the inference call's outcome (the
external collaborator's behaviour) is a parameter.  A streaming call that
raises is modelled by the list of chunks its generator yielded before the
exception was caught (`stream_response` catches the exception, shows an
inline error and ends the generator). -/

inductive Role where
  | user
  | assistant
  deriving DecidableEq

structure Turn where
  role : Role
  content : List Char
  deriving DecidableEq

inductive ConverseOutcome where
  | success (text : List Char)
  | failure

inductive StreamOutcome where
  | success (chunks : List (List Char))
  | failure (chunksBeforeError : List (List Char))

/-- Chunks the `stream_response` generator yields to its consumer: all of
them on success, those received before the exception on failure (the
exception handler shows an error and returns, ending the generator). -/
def yieldedChunks : StreamOutcome → List (List Char)
  | StreamOutcome.success cs => cs
  | StreamOutcome.failure cs => cs

/-- `1-chat.py` lines 54–99: append the user turn, call `converse`; on
success append the assistant turn, on exception only show an error. -/
def blockingSubmit (history : List Turn) (prompt : List Char)
    (outcome : ConverseOutcome) : List Turn :=
  let h1 := history ++ [⟨Role.user, prompt⟩]
  match outcome with
  | ConverseOutcome.success t => h1 ++ [⟨Role.assistant, t⟩]
  | ConverseOutcome.failure => h1

/-- `1-multimodel_chat_clean_stream.py` lines 321–373: append the user turn,
accumulate the yielded chunks, and append an assistant turn carrying the
final formatted response iff the accumulated response is non-empty. -/
def streamingSubmit (history : List Turn) (prompt : List Char)
    (outcome : StreamOutcome) : List Turn :=
  let h1 := history ++ [⟨Role.user, prompt⟩]
  let full := (yieldedChunks outcome).flatten
  if full = [] then h1
  else h1 ++ [⟨Role.assistant, format_final_response full true true⟩]

/-- The symbol table with the `\in` and `\infty` entries transposed: one of
the "any order" variants the spec's order-independence sentence quantifies
over. -/
def symbolTableSwapped : List (List Char × List Char) :=
  [ (toL "\\cup", toL "∪"),
    (toL "\\cap", toL "∩"),
    (toL "\\subset", toL "⊂"),
    (toL "\\supset", toL "⊃"),
    (toL "\\infty", toL "∞"),
    (toL "\\notin", toL "∉"),
    (toL "\\emptyset", toL "∅"),
    (toL "\\forall", toL "∀"),
    (toL "\\exists", toL "∃"),
    (toL "\\neg", toL "¬"),
    (toL "\\wedge", toL "∧"),
    (toL "\\vee", toL "∨"),
    (toL "\\leq", toL "≤"),
    (toL "\\geq", toL "≥"),
    (toL "\\neq", toL "≠"),
    (toL "\\approx", toL "≈"),
    (toL "\\cdot", toL "·"),
    (toL "\\times", toL "×"),
    (toL "\\div", toL "÷"),
    (toL "\\pm", toL "±"),
    (toL "\\in", toL "∈"),
    (toL "\\sum", toL "∑"),
    (toL "\\prod", toL "∏"),
    (toL "\\rightarrow", toL "→"),
    (toL "\\leftarrow", toL "←"),
    (toL "\\leftrightarrow", toL "↔") ]

/-! ## Lemmas about the string primitives -/

theorem splitFirst_eq_append {sep a b : List Char} :
    ∀ {s : List Char}, splitFirst sep s = some (a, b) → s = a ++ sep ++ b := by
  intro s
  induction s generalizing a with
  | nil => intro h; simp [splitFirst] at h
  | cons c rest ih =>
    intro h
    rw [splitFirst] at h
    by_cases hpre : sep.isPrefixOf (c :: rest)
    · rw [if_pos hpre] at h
      obtain ⟨t, ht⟩ := List.isPrefixOf_iff_prefix.mp hpre
      obtain ⟨rfl, rfl⟩ : a = [] ∧ (c :: rest).drop sep.length = b := by
        injection h with h'; exact ⟨congrArg Prod.fst h'.symm, congrArg Prod.snd h'⟩
      rw [← ht, List.drop_left]
      simp [ht.symm]
    · rw [if_neg hpre] at h
      cases hrest : splitFirst sep rest with
      | none => rw [hrest] at h; exact absurd h (by simp)
      | some p =>
        obtain ⟨a', b'⟩ := p
        rw [hrest] at h
        injection h with h'
        obtain ⟨rfl, rfl⟩ : a = c :: a' ∧ b' = b := by
          exact ⟨congrArg Prod.fst h'.symm, congrArg Prod.snd h'⟩
        simpa using ih hrest

theorem splitFirst_append {sep a b : List Char} (t : List Char) :
    ∀ {s : List Char}, splitFirst sep s = some (a, b) →
      splitFirst sep (s ++ t) = some (a, b ++ t) := by
  intro s
  induction s generalizing a with
  | nil => intro h; simp [splitFirst] at h
  | cons c rest ih =>
    intro h
    rw [splitFirst] at h
    by_cases hpre : sep.isPrefixOf (c :: rest)
    · rw [if_pos hpre] at h
      obtain ⟨u, hu⟩ := List.isPrefixOf_iff_prefix.mp hpre
      obtain ⟨rfl, rfl⟩ : a = [] ∧ (c :: rest).drop sep.length = b := by
        injection h with h'; exact ⟨congrArg Prod.fst h'.symm, congrArg Prod.snd h'⟩
      have hpre2 : sep.isPrefixOf (c :: (rest ++ t)) := by
        refine List.isPrefixOf_iff_prefix.mpr ⟨u ++ t, ?_⟩
        rw [← List.append_assoc, hu]
        rfl
      rw [List.cons_append, splitFirst, if_pos hpre2]
      have hdrop1 : (c :: rest).drop sep.length = u := by
        rw [← hu, List.drop_left]
      have hdrop2 : (c :: (rest ++ t)).drop sep.length = u ++ t := by
        have : c :: (rest ++ t) = sep ++ (u ++ t) := by
          rw [← List.append_assoc, hu]; rfl
        rw [this, List.drop_left]
      rw [hdrop1, hdrop2]
    · rw [if_neg hpre] at h
      cases hrest : splitFirst sep rest with
      | none => rw [hrest] at h; exact absurd h (by simp)
      | some p =>
        obtain ⟨a', b'⟩ := p
        rw [hrest] at h
        injection h with h'
        obtain ⟨rfl, rfl⟩ : a = c :: a' ∧ b' = b := by
          exact ⟨congrArg Prod.fst h'.symm, congrArg Prod.snd h'⟩
        have hlen : sep.length ≤ rest.length := by
          have := splitFirst_eq_append hrest
          subst this; simp; omega
        have hpre2 : ¬ sep.isPrefixOf (c :: (rest ++ t)) := by
          intro hc
          refine hpre (List.isPrefixOf_iff_prefix.mpr ?_)
          refine List.prefix_of_prefix_length_le
            (List.isPrefixOf_iff_prefix.mp hc) ?_ ?_
          · exact (List.prefix_append (c :: rest) t).trans (by rw [List.cons_append])
          · simp; omega
        rw [List.cons_append, splitFirst, if_neg hpre2, ih hrest]

theorem containsTag_iff_infix (sep : List Char) (hsep : sep ≠ []) :
    ∀ (s : List Char), containsTag sep s = true ↔ sep <:+: s := by
  intro s
  induction s with
  | nil =>
    rw [containsTag, splitFirst, List.infix_nil]
    simp [hsep]
  | cons c rest ih =>
    constructor
    · intro h
      rw [containsTag, Option.isSome_iff_exists] at h
      obtain ⟨⟨a, b⟩, hp⟩ := h
      have := splitFirst_eq_append hp
      exact ⟨a, b, by rw [← this]⟩
    · intro h
      by_cases hpre : sep.isPrefixOf (c :: rest)
      · rw [containsTag, splitFirst, if_pos hpre]
        rfl
      · rcases List.infix_cons_iff.mp h with h1 | h2
        · exact absurd (List.isPrefixOf_iff_prefix.mpr h1) hpre
        · have := ih.mpr h2
          rw [containsTag, Option.isSome_iff_exists] at this
          obtain ⟨⟨a, b⟩, hp⟩ := this
          rw [containsTag, splitFirst, if_neg hpre, hp]
          rfl

theorem afterFirst_of_splitFirst {sep s a b : List Char}
    (h : splitFirst sep s = some (a, b)) : afterFirst sep s = b := by
  simp [afterFirst, h]

theorem beforeFirst_of_splitFirst {sep s a b : List Char}
    (h : splitFirst sep s = some (a, b)) : beforeFirst sep s = a := by
  simp [beforeFirst, h]

theorem beforeFirst_sep_append {sep r : List Char} (hsep : sep ≠ []) :
    beforeFirst sep (sep ++ r) = [] := by
  cases sep with
  | nil => exact absurd rfl hsep
  | cons e et =>
    have hpre : (e :: et).isPrefixOf (e :: (et ++ r)) :=
      List.isPrefixOf_iff_prefix.mpr
        ((List.prefix_append (e :: et) r).trans (by rw [List.cons_append]))
    rw [beforeFirst, List.cons_append, splitFirst, if_pos hpre]

theorem dropWhile_append_fix (p : Char → Bool) :
    ∀ (s w : List Char), List.dropWhile p w = w →
      ∃ u, List.dropWhile p (s ++ w) = u ++ w := by
  intro s w hw
  induction s with
  | nil => exact ⟨[], by simpa using hw⟩
  | cons x s' ih =>
    by_cases hx : p x
    · obtain ⟨u, hu⟩ := ih
      exact ⟨u, by rw [List.cons_append, List.dropWhile_cons_of_pos hx, hu]⟩
    · exact ⟨x :: s', by rw [List.cons_append, List.dropWhile_cons_of_neg hx]⟩

theorem dropWhile_append_left (p : Char → Bool) (a b : List Char)
    (ha : List.dropWhile p a = a) (hne : a ≠ []) :
    List.dropWhile p (a ++ b) = a ++ b := by
  cases a with
  | nil => exact absurd rfl hne
  | cons c t =>
    have hc : ¬ p c := by
      intro hpc
      rw [List.dropWhile_cons_of_pos hpc] at ha
      have hle : (List.dropWhile p t).length ≤ t.length :=
        (List.Sublist.length_le (List.dropWhile_sublist p))
      rw [ha] at hle
      simp at hle
    rw [List.cons_append, List.dropWhile_cons_of_neg hc]

/-- Stripping a string that ends with a block `w` whose first and last
characters are not whitespace leaves `w` as a suffix (in fact untouched at
the end). -/
theorem pyStrip_append_suffix (s w : List Char)
    (h1 : List.dropWhile isPySpace w = w)
    (h2 : List.dropWhile isPySpace w.reverse = w.reverse)
    (h3 : w ≠ []) : w <:+ pyStrip (s ++ w) := by
  obtain ⟨u, hu⟩ := dropWhile_append_fix isPySpace s w h1
  have hwrev : w.reverse ≠ [] := by simpa using h3
  have : pyStrip (s ++ w) = u ++ w := by
    rw [pyStrip, hu, List.reverse_append,
      dropWhile_append_left isPySpace w.reverse u.reverse h2 hwrev,
      List.reverse_append, List.reverse_reverse, List.reverse_reverse]
  rw [this]
  exact List.suffix_append u w

/-! ## Claims -/

/-- C1.  Truncation detection: `check_missing_tags` returns `true` iff a
begin marker occurs in the final buffer without its matching end marker
(`('<|begin_of_thought|>' in text and '<|end_of_thought|>' not in text) or
('<|begin_of_solution|>' in text and '<|end_of_solution|>' not in text)`),
and when it returns `true` and the stream is complete in reasoning mode,
`format_final_response` appends the fixed warning annotation to the rendered
output (the warning text is a suffix of the returned rendering; the partial
content is kept and nothing is raised — the embedding is total). -/
theorem claim1_truncation_detection (text : List Char) :
    (check_missing_tags text = true ↔
      ((BEGIN_THOUGHT <:+: text ∧ ¬ END_THOUGHT <:+: text) ∨
       (BEGIN_SOLUTION <:+: text ∧ ¬ END_SOLUTION <:+: text))) ∧
    (check_missing_tags text = true →
      warnCore <:+ format_final_response text true true) := by
  have hbt := containsTag_iff_infix BEGIN_THOUGHT (by decide) text
  have het := containsTag_iff_infix END_THOUGHT (by decide) text
  have hbs := containsTag_iff_infix BEGIN_SOLUTION (by decide) text
  have hes := containsTag_iff_infix END_SOLUTION (by decide) text
  constructor
  · simp only [check_missing_tags, Bool.or_eq_true, Bool.and_eq_true,
      Bool.not_eq_true', ← Bool.not_eq_true, hbt, het, hbs, hes]
  · intro hc
    rw [format_final_response]
    have hwarn : warnText = toL "\n\n" ++ warnCore := by decide
    simp only [show ¬ (true = false) by decide, if_neg, Bool.true_and, hc,
      if_true, ite_false, ite_true, reduceIte]
    have hne : ∀ x : List Char, ¬ (x ++ warnText = []) := by
      intro x h
      rcases List.append_eq_nil.mp h with ⟨-, h2⟩
      exact absurd h2 (by decide)
    rw [if_neg (hne _)]
    rw [hwarn, ← List.append_assoc]
    exact pyStrip_append_suffix _ warnCore (by decide) (by decide) (by decide)

/-- C1 witness: at the truncated buffer `"<|begin_of_thought|>x"` the checker
fires and the warning text is a suffix of the final rendering. -/
theorem claim1_truncation_detection_witness :
    warnCore <:+ format_final_response (toL "<|begin_of_thought|>x") true true :=
  (claim1_truncation_detection (toL "<|begin_of_thought|>x")).2 (by decide)

/-- C2.  Monotonic-prefix property: if buffer `B` contains
`<|begin_of_thought|>` and a subsequent `<|end_of_thought|>` (the thought
section is closed), then extending the buffer by any non-empty suffix `S`
leaves the extracted thought content unchanged — both for the streaming
extraction (`format_streaming_response`, split-based) and for the final
extraction (`format_final_response`, regex-based, stripped). -/
theorem claim2_monotonic_prefix (B S : List Char) (_hS : S ≠ [])
    (h1 : containsTag BEGIN_THOUGHT B = true)
    (h2 : containsTag END_THOUGHT (afterFirst BEGIN_THOUGHT B) = true) :
    thoughtContentOfStream (B ++ S) = thoughtContentOfStream B ∧
    finalThoughtContent (B ++ S) = finalThoughtContent B := by
  rw [containsTag, Option.isSome_iff_exists] at h1
  obtain ⟨⟨a, c⟩, hp⟩ := h1
  rw [afterFirst_of_splitFirst hp] at h2
  rw [containsTag, Option.isSome_iff_exists] at h2
  obtain ⟨⟨d, e⟩, hq⟩ := h2
  have hp2 := splitFirst_append S hp
  have hq2 := splitFirst_append S hq
  constructor
  · rw [thoughtContentOfStream, thoughtContentOfStream,
      afterFirst_of_splitFirst hp, afterFirst_of_splitFirst hp2,
      beforeFirst_of_splitFirst hq, beforeFirst_of_splitFirst hq2]
  · rw [finalThoughtContent, finalThoughtContent, hp, hp2]
    simp only [beforeFirst_of_splitFirst hq, beforeFirst_of_splitFirst hq2]

/-- C2 witness: a concrete closed thought section frozen under extension. -/
theorem claim2_monotonic_prefix_witness :
    thoughtContentOfStream
        (toL "<|begin_of_thought|>abc<|end_of_thought|>tail" ++ toL "XYZ") =
      thoughtContentOfStream (toL "<|begin_of_thought|>abc<|end_of_thought|>tail") ∧
    finalThoughtContent
        (toL "<|begin_of_thought|>abc<|end_of_thought|>tail" ++ toL "XYZ") =
      finalThoughtContent (toL "<|begin_of_thought|>abc<|end_of_thought|>tail") :=
  claim2_monotonic_prefix (toL "<|begin_of_thought|>abc<|end_of_thought|>tail")
    (toL "XYZ") (by decide) (by decide) (by decide)

/-- C3 counterexample: the claim says that whenever `<|end_of_thought|>` is
present the solution markers are located only within the remainder after it.
At the buffer `"<|begin_of_solution|>X<|end_of_solution|><|end_of_thought|>"`
the end-of-thought marker is present and the remainder after it contains no
`<|begin_of_solution|>`, yet both the final extraction and the streaming
extraction locate the solution content `"X"` — which lies before the
end-of-thought marker. -/
theorem claim3_counterexample :
    containsTag END_THOUGHT
        (toL "<|begin_of_solution|>X<|end_of_solution|><|end_of_thought|>") = true ∧
    containsTag BEGIN_SOLUTION
        (afterFirst END_THOUGHT
          (toL "<|begin_of_solution|>X<|end_of_solution|><|end_of_thought|>")) = false ∧
    finalSolutionContent
        (toL "<|begin_of_solution|>X<|end_of_solution|><|end_of_thought|>") = toL "X" ∧
    solContentOfStream
        (streamCurrentAfterThought
          (toL "<|begin_of_solution|>X<|end_of_solution|><|end_of_thought|>")) =
      toL "X" := by
  refine ⟨by decide, by decide, by decide, by decide⟩

/-- C3 (amended).  In `format_streaming_response`, once the thought section
was opened and closed (begin marker present, end marker present after it),
the `current_text` used for the solution search is exactly the remainder of
the buffer after the first `<|end_of_thought|>`, so the solution markers are
located only within that remainder; `format_final_response`, by contrast,
searches the whole buffer (see the counterexample). -/
theorem claim3_solution_zone (text : List Char)
    (h1 : containsTag BEGIN_THOUGHT text = true)
    (h2 : containsTag END_THOUGHT (afterFirst BEGIN_THOUGHT text) = true) :
    streamCurrentAfterThought text = afterFirst END_THOUGHT text ∧
    solContentOfStream (streamCurrentAfterThought text) =
      solContentOfStream (afterFirst END_THOUGHT text) := by
  have hz : streamCurrentAfterThought text = afterFirst END_THOUGHT text := by
    rw [streamCurrentAfterThought, if_pos h1, if_pos h2]
  exact ⟨hz, by rw [hz]⟩

/-- C3 witness: a concrete well-formed buffer in which the streaming solution
search zone is the post-`<|end_of_thought|>` remainder. -/
theorem claim3_solution_zone_witness :
    streamCurrentAfterThought
        (toL "<|begin_of_thought|>x<|end_of_thought|><|begin_of_solution|>y<|end_of_solution|>") =
      afterFirst END_THOUGHT
        (toL "<|begin_of_thought|>x<|end_of_thought|><|begin_of_solution|>y<|end_of_solution|>") ∧
    solContentOfStream
        (streamCurrentAfterThought
          (toL "<|begin_of_thought|>x<|end_of_thought|><|begin_of_solution|>y<|end_of_solution|>")) =
      solContentOfStream
        (afterFirst END_THOUGHT
          (toL "<|begin_of_thought|>x<|end_of_thought|><|begin_of_solution|>y<|end_of_solution|>")) :=
  claim3_solution_zone
    (toL "<|begin_of_thought|>x<|end_of_thought|><|begin_of_solution|>y<|end_of_solution|>")
    (by decide) (by decide)

/-- C7.  Empty-section boundary: when the first begin marker is immediately
followed by its matching end marker, extraction yields an empty-string
content for that section, for the streaming and the final extraction of the
thought section and likewise for the solution section (the formatters are
total functions, so no error can be raised). -/
theorem claim7_empty_section :
    (∀ (textT a r : List Char),
      splitFirst BEGIN_THOUGHT textT = some (a, END_THOUGHT ++ r) →
        thoughtContentOfStream textT = [] ∧ finalThoughtContent textT = []) ∧
    (∀ (textS b q : List Char),
      splitFirst BEGIN_SOLUTION textS = some (b, END_SOLUTION ++ q) →
        solContentOfStream textS = [] ∧ finalSolutionContent textS = []) := by
  constructor
  · intro textT a r h
    have hb : beforeFirst END_THOUGHT (END_THOUGHT ++ r) = [] :=
      beforeFirst_sep_append (by decide)
    constructor
    · rw [thoughtContentOfStream, afterFirst_of_splitFirst h, hb]
    · rw [finalThoughtContent, h]
      simp only [hb]
      decide
  · intro textS b q h
    have hb : beforeFirst END_SOLUTION (END_SOLUTION ++ q) = [] :=
      beforeFirst_sep_append (by decide)
    constructor
    · rw [solContentOfStream, afterFirst_of_splitFirst h, hb]
    · rw [finalSolutionContent, h]
      simp only [hb]
      decide

/-- C7 witness: the two back-to-back marker pairs yield empty contents. -/
theorem claim7_empty_section_witness :
    (thoughtContentOfStream (toL "<|begin_of_thought|><|end_of_thought|>") = [] ∧
      finalThoughtContent (toL "<|begin_of_thought|><|end_of_thought|>") = []) ∧
    (solContentOfStream (toL "<|begin_of_solution|><|end_of_solution|>") = [] ∧
      finalSolutionContent (toL "<|begin_of_solution|><|end_of_solution|>") = []) :=
  ⟨claim7_empty_section.1 (toL "<|begin_of_thought|><|end_of_thought|>") [] []
      (by decide),
    claim7_empty_section.2 (toL "<|begin_of_solution|><|end_of_solution|>") [] []
      (by decide)⟩

/-- C4 counterexample: the claim says the substitution table's patterns are
disjoint (no control sequence a prefix of another) and that applying the
substitutions in any order gives the same result.  In fact `\in` is a prefix
of `\infty`, and transposing the `\in` and `\infty` entries (a permutation of
the table) changes the result on the input `"\infty"`. -/
theorem claim4_counterexample :
    (toL "\\in").isPrefixOf (toL "\\infty") = true ∧
    List.Perm symbolTableSwapped symbolTable ∧
    applySubs symbolTableSwapped (toL "\\infty") ≠
      applySubs symbolTable (toL "\\infty") :=
  ⟨by decide, by decide, by decide⟩

/-- C4 (amended).  The table's patterns are not disjoint: `\in` is a prefix
of `\infty`, so substitution order matters.  In the source order the `\in`
rule fires first, rewriting `\infty` to `∈fty` (the `\infty` rule can then
never match); applying the `\infty` substitution before `\in` would yield
`∞` instead. -/
theorem claim4_order_dependence :
    applySubs symbolTable (toL "\\infty") = toL "∈fty" ∧
    applySubs symbolTableSwapped (toL "\\infty") = toL "∞" ∧
    replace_math_symbols (toL "\\infty") = toL "∈fty" :=
  ⟨by decide, by decide, by decide⟩

/-- C5.  Determinism / re-parse stability: the rendering pipeline is a pure
function of the buffer text and the mode flags — equal inputs give
character-for-character equal outputs for both the streaming formatter and
the final formatter, with no hidden state (the embedded functions take no
other arguments, mirroring the source functions, which read no mutable
global state). -/
theorem claim5_determinism (t1 t2 : List Char) (m1 m2 c1 c2 : Bool)
    (ht : t1 = t2) (hm : m1 = m2) (hc : c1 = c2) :
    format_streaming_response t1 m1 = format_streaming_response t2 m2 ∧
    format_final_response t1 m1 c1 = format_final_response t2 m2 c2 := by
  subst ht hm hc
  exact ⟨rfl, rfl⟩

/-- C5 witness: two runs over the same unchanged buffer coincide. -/
theorem claim5_determinism_witness :
    format_streaming_response (toL "x $$a \\cup b$$") true =
      format_streaming_response (toL "x $$a \\cup b$$") true ∧
    format_final_response (toL "x $$a \\cup b$$") true true =
      format_final_response (toL "x $$a \\cup b$$") true true :=
  claim5_determinism (toL "x $$a \\cup b$$") (toL "x $$a \\cup b$$")
    true true true true rfl rfl rfl

/-- C6.  Math rewriting example: `"$$A \cup B$$"` becomes the display-math
span `:latex:`A ∪ B``, and the cosmetic pass rewrites it to
`:latex:`A union B`` because both operands are single letters. -/
theorem claim6_math_example :
    format_latex (toL "$$A \\cup B$$") = toL ":latex:`A ∪ B`" ∧
    process_math_expressions (toL ":latex:`A ∪ B`") = toL ":latex:`A union B`" :=
  ⟨by decide, by decide⟩

/-- C8 counterexample: the claim says every failing inference call leaves the
Conversation without an appended assistant Turn.  For a streaming call that
fails after the chunk `"hi"` has already been yielded, the driver appends an
assistant Turn carrying the formatted partial response, so the Conversation
is not left in its pre-call state. -/
theorem claim8_counterexample :
    streamingSubmit [] (toL "q") (StreamOutcome.failure [toL "hi"]) =
      [⟨Role.user, toL "q"⟩, ⟨Role.assistant, toL "hi"⟩] ∧
    streamingSubmit [] (toL "q") (StreamOutcome.failure [toL "hi"]) ≠
      [⟨Role.user, toL "q"⟩] :=
  ⟨by decide, by decide⟩

/-- C8 (amended).  A failing blocking call, and a failing streaming call
that yielded no text, leave the Conversation with the in-flight user Turn
recorded and no assistant Turn appended; a streaming call that fails after
yielding text appends an assistant Turn carrying the formatted partial
response (the user Turn is retained in every case). -/
theorem claim8_failure_atomicity (history : List Turn) (prompt : List Char)
    (cs : List (List Char)) :
    blockingSubmit history prompt ConverseOutcome.failure =
      history ++ [⟨Role.user, prompt⟩] ∧
    streamingSubmit history prompt (StreamOutcome.failure []) =
      history ++ [⟨Role.user, prompt⟩] ∧
    (cs.flatten ≠ [] →
      streamingSubmit history prompt (StreamOutcome.failure cs) =
        history ++ [⟨Role.user, prompt⟩,
          ⟨Role.assistant, format_final_response cs.flatten true true⟩]) := by
  refine ⟨rfl, by simp [streamingSubmit, yieldedChunks], ?_⟩
  intro h
  rw [streamingSubmit]
  simp only [yieldedChunks]
  rw [if_neg h]
  simp

/-- C8 witness: a concrete streaming failure after one yielded chunk. -/
theorem claim8_failure_atomicity_witness :
    streamingSubmit [] (toL "p") (StreamOutcome.failure [toL "ok"]) =
      [] ++ [⟨Role.user, toL "p"⟩,
        ⟨Role.assistant, format_final_response ([toL "ok"]).flatten true true⟩] :=
  (claim8_failure_atomicity [] (toL "p") [toL "ok"]).2.2 (by decide)

/-- C9.  Fallback rendering: on a final buffer whose extracted thought and
solution contents are both empty after stripping, with no truncation warning
appended, `format_final_response` in reasoning mode returns the
math-rewritten raw buffer itself (stripped), tag markers included if any
were present, rather than an empty string. -/
theorem claim9_fallback_rendering (text : List Char) (complete : Bool)
    (h1 : finalThoughtContent text = [])
    (h2 : finalSolutionContent text = [])
    (h3 : (complete && check_missing_tags text) = false) :
    format_final_response text true complete =
      pyStrip (process_math_expressions (format_latex text)) := by
  rw [format_final_response]
  simp only [show ¬ (true = false) by decide, if_neg, h1, h2, Bool.true_and, h3,
    reduceIte, ite_true, ite_false]
  simp

/-- C9 witness: a tag-free buffer falls through to the rewritten raw text. -/
theorem claim9_fallback_rendering_witness :
    format_final_response (toL "hello") true true =
      pyStrip (process_math_expressions (format_latex (toL "hello"))) :=
  claim9_fallback_rendering (toL "hello") true (by decide) (by decide) (by decide)

/-- C10.  Streaming-cursor invariant: every `format_streaming_response`
return value — any text, both modes — ends with the streaming cursor `"▌"`,
and on the empty buffer the output is the cursor placeholder alone in both
modes. -/
theorem claim10_streaming_cursor :
    (∀ (text : List Char) (mode : Bool),
      cursorL <:+ format_streaming_response text mode) ∧
    format_streaming_response [] true = cursorL ∧
    format_streaming_response [] false = cursorL := by
  refine ⟨?_, by decide, by decide⟩
  intro text mode
  rw [format_streaming_response]
  exact List.suffix_append _ cursorL

end Bedrock
